import Mathlib

/-!
Verification of the employee-record manager (`src/app/app.ts`).

The component keeps an in-memory list of employee records, a draft form with
declarative validators, a staged photo preview and staged document list, and
mirrors the record list to the browser's local storage as one JSON blob.

Modelling conventions:
* JavaScript arrays of records are `List (Option Employee)`; `none` models a
  vacant slot (a JS hole or `null` element, both falsy), which arises when
  `list[idx] = v` writes past the end of the array.
* JS numbers on the modelled paths are integers; they are embedded as `Int`
  (or `Nat` for byte counts).  The floating-point operations in `formatBytes`
  (`Math.log`, division, `toFixed`) are embedded as exact integer arithmetic
  with the rounding mode of `Number.prototype.toFixed` (round half away from
  zero for non-negative values).
* `localStorage` and `JSON.parse`/`JSON.stringify` are browser primitives,
  external to the repository.  A raw stored string is modelled by what the
  app can observe of it: its parse result and whether it is the empty string
  (the only falsy string).  `jsonStringify` uses the platform contract that
  serialising a JSON value yields a non-empty string that parses back to the
  same value.
-/

namespace EmployeeApp

/-- Document descriptor (`DocInfo` in `app.ts`): file name and size in bytes. -/
structure DocInfo where
  name : String
  size : Int
deriving DecidableEq

/-- Employee record (`Employee` in `app.ts`).  Optional fields of the
TypeScript interface (`email?`, `religion?`, `lastWorkPlace?`,
`photoDataUrl?`) are `Option String`, with `none` standing for `null`. -/
structure Employee where
  name : String
  phone : String
  email : Option String
  nid : String
  dob : String
  address : String
  qualification : String
  religion : Option String
  experience : Int
  lastWorkPlace : Option String
  salary : Int
  photoDataUrl : Option String
  documents : List DocInfo
deriving DecidableEq

/-- The eleven form control values, in the order of the `fb.group` call. -/
structure FormValues where
  name : String
  phone : String
  email : String
  nid : String
  dob : String
  address : String
  qualification : String
  religion : String
  experience : Int
  lastWorkPlace : String
  salary : Int
deriving DecidableEq

/-- Touched flags of the eleven form controls. -/
structure Touched where
  name : Bool
  phone : Bool
  email : Bool
  nid : Bool
  dob : Bool
  address : Bool
  qualification : Bool
  religion : Bool
  experience : Bool
  lastWorkPlace : Bool
  salary : Bool
deriving DecidableEq

/-- All controls touched, the effect of `form.markAllAsTouched()`. -/
def allTouched : Touched :=
  ⟨true, true, true, true, true, true, true, true, true, true, true⟩

/-- All controls untouched, the effect of `form.reset(...)`. -/
def noTouched : Touched :=
  ⟨false, false, false, false, false, false, false, false, false, false, false⟩

/-- JSON values, the result universe of the platform's `JSON.parse`. -/
inductive Json where
  | null : Json
  | bool : Bool → Json
  | num : Int → Json
  | str : String → Json
  | arr : List Json → Json
  | obj : List (String × Json) → Json

/-- A raw `localStorage` string as the app can observe it: the result of
`JSON.parse` on it (`none` when parsing throws) and whether it is the empty
string, the only falsy string (`!raw` in `loadEmployees`). -/
structure RawString where
  parsed : Option Json
  isEmptyStr : Bool

/-- Platform contract of `JSON.stringify` on JSON-representable values: the
produced string is non-empty and `JSON.parse` recovers the value. -/
def jsonStringify (j : Json) : RawString :=
  ⟨some j, false⟩

/-- The whole component state: record list, draft session (editing index,
photo preview, staged documents, form values and touched flags) and the
`localStorage` slot under the key `employees` (`none` when the key is
absent). -/
structure AppState where
  employees : List (Option Employee)
  editingIndex : Option Int
  photoPreview : Option String
  docs : List DocInfo
  values : FormValues
  touched : Touched
  storage : Option RawString

/-! ### Form validators

Angular's validator classes are framework code, outside this repository; the
declarative rules attached in `ngOnInit` are embedded as boolean checks on
the typed control values.  `Validators.pattern` and `Validators.email`
accept the empty string (they only fire on non-empty values). -/

/-- `Validators.required` on a string control: non-empty. -/
def requiredOk (s : String) : Bool :=
  s ≠ ""

/-- `Validators.maxLength n`: at most `n` characters. -/
def maxLengthOk (n : Nat) (s : String) : Bool :=
  s.length ≤ n

/-- `Validators.pattern` with regex of 10 to 15 digits; the empty
string passes (required is checked separately). -/
def phonePatternOk (s : String) : Bool :=
  s = "" || (s.data.all Char.isDigit && 10 ≤ s.length && s.length ≤ 15)

/-- Simplified model of the framework's `Validators.email` (framework code,
outside this repository): the empty string passes, otherwise exactly one
at-sign with non-empty text on both sides. -/
def emailOk (s : String) : Bool :=
  s = "" ||
    (s.data.count '@' = 1 &&
      s.data.takeWhile (fun c => c ≠ '@') ≠ [] &&
      (s.data.dropWhile (fun c => c ≠ '@')).drop 1 ≠ [])

/-- `Validators.min 0` on a numeric control. -/
def minZeroOk (n : Int) : Bool :=
  0 ≤ n

/-- Validity of the whole form group: every control passes its validators
(`religion` and `lastWorkPlace` carry none). -/
def formValid (v : FormValues) : Bool :=
  requiredOk v.name && maxLengthOk 100 v.name &&
  requiredOk v.phone && phonePatternOk v.phone &&
  emailOk v.email &&
  requiredOk v.nid && maxLengthOk 30 v.nid &&
  requiredOk v.dob &&
  requiredOk v.address && maxLengthOk 250 v.address &&
  requiredOk v.qualification && maxLengthOk 120 v.qualification &&
  minZeroOk v.experience &&
  minZeroOk v.salary

/-- `this.form.invalid`. -/
def formInvalid (v : FormValues) : Bool :=
  !formValid v

/-! ### Serialisation bridge

`saveEmployees` stringifies the record list; `loadEmployees` parses it and
only checks `Array.isArray`.  `encodeEmployee` writes the object with the
key order `JSON.stringify` would use (spread of `form.value` in group order,
then `photoDataUrl`, then `documents`).  `decodeSlot` is the bridge back
from JSON to the typed model; the source performs no per-element validation
(a type cast), so array elements that are not well-formed records are
modelled as vacant slots. -/

/-- Encoding of an optional string field: `none` is `null`. -/
def encodeOptStr : Option String → Json
  | none => Json.null
  | some s => Json.str s

/-- Encoding of a document descriptor. -/
def encodeDoc (d : DocInfo) : Json :=
  Json.obj [("name", Json.str d.name), ("size", Json.num d.size)]

/-- Encoding of an employee record as the JSON object `JSON.stringify`
produces for it. -/
def encodeEmployee (e : Employee) : Json :=
  Json.obj
    [("name", Json.str e.name),
     ("phone", Json.str e.phone),
     ("email", encodeOptStr e.email),
     ("nid", Json.str e.nid),
     ("dob", Json.str e.dob),
     ("address", Json.str e.address),
     ("qualification", Json.str e.qualification),
     ("religion", encodeOptStr e.religion),
     ("experience", Json.num e.experience),
     ("lastWorkPlace", encodeOptStr e.lastWorkPlace),
     ("salary", Json.num e.salary),
     ("photoDataUrl", encodeOptStr e.photoDataUrl),
     ("documents", Json.arr (e.documents.map encodeDoc))]

/-- Encoding of one array slot: a vacant slot (JS hole) is serialised as
`null` by `JSON.stringify`. -/
def encodeSlot : Option Employee → Json
  | none => Json.null
  | some e => encodeEmployee e

/-- First-match lookup of a key in a JSON object (the encoder never emits
duplicate keys). -/
def lookupField : List (String × Json) → String → Option Json
  | [], _ => none
  | (k, v) :: rest, key => if k = key then some v else lookupField rest key

/-- Read a JSON value as a string. -/
def asStr : Json → Option String
  | Json.str s => some s
  | _ => none

/-- Read a JSON value as an integer. -/
def asInt : Json → Option Int
  | Json.num n => some n
  | _ => none

/-- Read a JSON value as an optional string (`null` is `none`). -/
def asOptStr : Json → Option (Option String)
  | Json.null => some none
  | Json.str s => some (some s)
  | _ => none

/-- Read a JSON value as a document descriptor. -/
def asDoc : Json → Option DocInfo
  | Json.obj fields =>
    match lookupField fields "name", lookupField fields "size" with
    | some (Json.str n), some (Json.num s) => some ⟨n, s⟩
    | _, _ => none
  | _ => none

/-- Read a JSON list as a list of document descriptors. -/
def decodeDocs : List Json → Option (List DocInfo)
  | [] => some []
  | j :: rest =>
    match asDoc j, decodeDocs rest with
    | some d, some ds => some (d :: ds)
    | _, _ => none

/-- Read a JSON object as an employee record. -/
def decodeEmployee (fields : List (String × Json)) : Option Employee :=
  match lookupField fields "name" >>= asStr,
      lookupField fields "phone" >>= asStr,
      lookupField fields "email" >>= asOptStr,
      lookupField fields "nid" >>= asStr,
      lookupField fields "dob" >>= asStr,
      lookupField fields "address" >>= asStr,
      lookupField fields "qualification" >>= asStr,
      lookupField fields "religion" >>= asOptStr,
      lookupField fields "experience" >>= asInt,
      lookupField fields "lastWorkPlace" >>= asOptStr,
      lookupField fields "salary" >>= asInt with
  | some n, some p, some em, some ni, some db, some ad, some q, some re,
      some ex, some lw, some sa =>
    match lookupField fields "photoDataUrl" >>= asOptStr with
    | some ph =>
      match lookupField fields "documents" with
      | some (Json.arr djs) =>
        match decodeDocs djs with
        | some ds => some ⟨n, p, em, ni, db, ad, q, re, ex, lw, sa, ph, ds⟩
        | none => none
      | _ => none
    | none => none
  | _, _, _, _, _, _, _, _, _, _, _ => none

/-- Bridge from one parsed array element back to the typed model.  The
source keeps whatever `JSON.parse` produced (a cast, no validation); an
element that is not a well-formed record behaves as a falsy/opaque slot in
every modelled operation and is embedded as a vacant slot. -/
def decodeSlot : Json → Option Employee
  | Json.obj fields => decodeEmployee fields
  | _ => none

/-! ### Operations (`app.ts` lines 120-234) -/

/-- The record built on submit: spread of `form.value` plus the staged
photo preview and staged documents (`addEmployee`/`updateEmployee`). -/
def mkEmployee (v : FormValues) (photo : Option String) (ds : List DocInfo) :
    Employee :=
  ⟨v.name, v.phone, some v.email, v.nid, v.dob, v.address, v.qualification,
   some v.religion, v.experience, some v.lastWorkPlace, v.salary, photo, ds⟩

/-- JS assignment `list[n] = e` on an array: in range it replaces the
element; past the end it extends the array to length `n + 1`, with holes
between the old end and `n`. -/
def jsArraySet (l : List (Option Employee)) (n : Nat) (e : Employee) :
    List (Option Employee) :=
  if n < l.length then l.set n (some e)
  else l ++ List.replicate (n - l.length) none ++ [some e]

/-- JS `list.splice(i, 1)`: a negative start counts from the end (clamped
at 0), a start at or past the end deletes nothing. -/
def jsSpliceRemove (l : List (Option Employee)) (i : Int) :
    List (Option Employee) :=
  let len := l.length
  let start : Nat := if i < 0 then ((len : Int) + i).toNat else min i.toNat len
  l.take start ++ l.drop (start + 1)

/-- JS read `list[i]` followed by the falsy check `!emp`: out of range,
holes and `null` elements all read as absent. -/
def jsIndexGet (l : List (Option Employee)) (i : Int) : Option Employee :=
  if 0 ≤ i then (l.getD i.toNat none) else none

/-- `saveEmployees()`: write the stringified record list to storage. -/
def saveEmployeesFun (s : AppState) : AppState :=
  { s with storage := some (jsonStringify (Json.arr (s.employees.map encodeSlot))) }

/-- `resetForm()`: default field values, untouched controls, no photo
preview, no staged documents, no edit target. -/
def defaultFormValues : FormValues :=
  ⟨"", "", "", "", "", "", "", "", 0, "", 0⟩

/-- `resetForm()` as a state transformer. -/
def resetFormFun (s : AppState) : AppState :=
  { s with values := defaultFormValues, touched := noTouched,
           photoPreview := none, docs := [], editingIndex := none }

/-- `addEmployee()`: an invalid form only marks every control touched;
otherwise the merged record is prepended, the list persisted and the form
reset. -/
def addEmployee (s : AppState) : AppState :=
  if formInvalid s.values then { s with touched := allTouched }
  else
    let employee := mkEmployee s.values s.photoPreview s.docs
    let s1 := { s with employees := some employee :: s.employees }
    resetFormFun (saveEmployeesFun s1)

/-- `updateEmployee()`: an invalid form only marks every control touched; a
missing or negative editing index is a no-op; otherwise `list[idx]` is
assigned the merged record, the list persisted and the form reset. -/
def updateEmployee (s : AppState) : AppState :=
  if formInvalid s.values then { s with touched := allTouched }
  else
    match s.editingIndex with
    | none => s
    | some idx =>
      if idx < 0 then s
      else
        let updated := mkEmployee s.values s.photoPreview s.docs
        let s1 := { s with employees := jsArraySet s.employees idx.toNat updated }
        resetFormFun (saveEmployeesFun s1)

/-- `editEmployee(index)`: a falsy read (out of range, hole or `null`) is a
no-op; otherwise the record's fields are copied into the form (absent
optional fields defaulting to the empty string), the preview and staged
documents are set from the record and the index becomes the edit target. -/
def editEmployee (i : Int) (s : AppState) : AppState :=
  match jsIndexGet s.employees i with
  | none => s
  | some e =>
    { s with
      values := ⟨e.name, e.phone, e.email.getD "", e.nid, e.dob, e.address,
                 e.qualification, e.religion.getD "", e.experience,
                 e.lastWorkPlace.getD "", e.salary⟩,
      touched := noTouched,
      photoPreview := e.photoDataUrl,
      docs := e.documents,
      editingIndex := some i }

/-- `deleteEmployee(index)`: splice the element out, persist, and reset the
draft session when the deleted index was the edit target. -/
def deleteEmployee (i : Int) (s : AppState) : AppState :=
  let s1 := { s with employees := jsSpliceRemove s.employees i }
  let s2 := saveEmployeesFun s1
  if s2.editingIndex = some i then resetFormFun s2 else s2

/-- Parse of the stored blob in `loadEmployees()`: a missing key or falsy
string, a parse failure, and parsed content that is not an array all fall
back to the empty list; an array is taken element-wise. -/
def loadList : Option RawString → List (Option Employee)
  | none => []
  | some raw =>
    if raw.isEmptyStr then []
    else
      match raw.parsed with
      | none => []
      | some (Json.arr xs) => xs.map decodeSlot
      | some _ => []

/-- `loadEmployees()` as a state transformer. -/
def loadEmployeesFun (s : AppState) : AppState :=
  { s with employees := loadList s.storage }

/-! ### Helpers (`app.ts` lines 237-253) -/

/-- Base-1024 floor logarithm, the exact value of
`Math.floor(Math.log(bytes) / Math.log(1024))` for positive integers with
the floating-point operations idealised as exact reals.  The first argument
is fuel; `log1024` supplies `n` itself, which bounds the recursion depth. -/
def log1024Aux : Nat → Nat → Nat
  | _, 0 => 0
  | n, fuel + 1 => if n < 1024 then 0 else log1024Aux (n / 1024) fuel + 1

/-- Exponent of the unit chosen by `formatBytes` for a positive byte
count. -/
def log1024 (n : Nat) : Nat :=
  log1024Aux n n

/-- The unit table `['B', 'KB', 'MB', 'GB', 'TB']`; reading past the end of
a JS array yields `undefined`, which a template literal renders as the text
`undefined`. -/
def sizes : List String := ["B", "KB", "MB", "GB", "TB"]

/-- Rendering of `bytes / 1024^i` by `toFixed`: 0 decimals when the scaled
value is at least 10 or the unit is bytes, else 1 decimal.  `toFixed` on a
non-negative value rounds half up; the scaled value is the exact rational
`n / 1024^i` (a dyadic rational, exactly representable in the source's
doubles for all byte counts below 2^53). -/
def renderBytes (n i : Nat) : String :=
  let q := 1024 ^ i
  if 10 * q ≤ n ∨ i = 0 then
    toString ((2 * n + q) / (2 * q)) ++ " " ++ sizes.getD i "undefined"
  else
    let t := (20 * n + q) / (2 * q)
    toString (t / 10) ++ "." ++ toString (t % 10) ++ " " ++ sizes.getD i "undefined"

/-- `formatBytes(bytes)` (`app.ts` line 237). -/
def formatBytes (bytes : Nat) : String :=
  if bytes = 0 then "0 B" else renderBytes bytes (log1024 bytes)

/-- JS `str.split(sep)` for a one-character separator: empty fragments are
kept and the empty string splits to one empty fragment. -/
def jsSplitBy (p : Char → Bool) : List Char → List (List Char)
  | [] => [[]]
  | c :: rest =>
    if p c then [] :: jsSplitBy p rest
    else
      match jsSplitBy p rest with
      | [] => [[c]]
      | t :: ts => (c :: t) :: ts

/-- The mapping step of `initials`: first character of a fragment,
uppercased (`s[0]?.toUpperCase() ?? ''`); the uppercase mapping is
idealised to ASCII. -/
def firstUpperStr : List Char → String
  | [] => ""
  | c :: _ => String.singleton c.toUpper

/-- `initials(name)` (`app.ts` line 246): split on the space character,
drop empty fragments (`filter(Boolean)`), take the first two, map each to
its uppercased first character and concatenate.  `name || ''` is the
identity on the modelled strings. -/
def initials (name : String) : String :=
  String.join
    ((((jsSplitBy (fun c => c = ' ') name.data).filter
        (fun t => !t.isEmpty)).take 2).map firstUpperStr)

/-! ### Definitions following the spec's words

These are not translations of the source; each follows the sentence of the
specification it is named after, to be compared with the source-derived
definition above. -/

/-- Whitespace characters for the spec sentence that `initials` splits on
whitespace. -/
def isWsChar (c : Char) : Bool :=
  c = ' ' || c = '\t' || c = '\n' || c = '\r'

/-- The claim's reading of `initials`: split on whitespace, drop empty
tokens, take the first two, uppercase the first character of each and
concatenate. -/
def initialsWhitespaceSpec (name : String) : String :=
  String.join
    ((((jsSplitBy isWsChar name.data).filter
        (fun t => !t.isEmpty)).take 2).map firstUpperStr)

/-- Tokeniser that never produces empty tokens: the amended reading of
`initials` splits the name into maximal runs of non-separator
characters. -/
def tokensBy (p : Char → Bool) : List Char → List (List Char)
  | [] => []
  | c :: rest =>
    if p c then tokensBy p rest
    else
      (c :: rest.takeWhile (fun x => !p x)) ::
        tokensBy p (rest.dropWhile (fun x => !p x))
termination_by l => l.length
decreasing_by
  · simp
  · exact Nat.lt_succ_of_le (List.dropWhile_sublist _).length_le

/-- The amended reading of `initials`: maximal space-free runs as tokens,
first two tokens, uppercased first characters, concatenated. -/
def initialsSpaceTokensSpec (name : String) : String :=
  String.join
    (((tokensBy (fun c => c = ' ') name.data).take 2).map firstUpperStr)

/-- Unit exponent as the spec describes it: the largest unit among B, KB,
MB, GB, TB whose scale does not exceed the byte count (thresholds written
as literals: 1024^2, 1024^3, 1024^4). -/
def specUnitIndex (n : Nat) : Nat :=
  if n < 1024 then 0
  else if n < 1048576 then 1
  else if n < 1073741824 then 2
  else if n < 1099511627776 then 3
  else 4

/-- `formatBytes` as the spec describes it, sharing the exact `toFixed`
rendering with the source embedding but selecting the unit by explicit
threshold comparison. -/
def formatBytesSpec (bytes : Nat) : String :=
  if bytes = 0 then "0 B" else renderBytes bytes (specUnitIndex bytes)

/-! ### Concrete sample data for witnesses and counterexamples -/

/-- Form values that pass every validator. -/
def sampleValidValues : FormValues :=
  ⟨"Jane Doe", "1234567890", "", "1234567890123", "1990-01-01", "Dhaka",
   "BSc", "", 2, "", 100⟩

/-- Form values that fail validation (required name is empty). -/
def sampleInvalidValues : FormValues :=
  ⟨"", "1234567890", "", "1234567890123", "1990-01-01", "Dhaka",
   "BSc", "", 2, "", 100⟩

/-- A stored employee record. -/
def sampleEmployee : Employee :=
  ⟨"Old Name", "0123456789", some "", "111", "1980-05-05", "Somewhere",
   "MSc", some "", 1, some "", 50, none, []⟩

/-- Base state: empty record list, no edit target, valid draft values,
missing storage key. -/
def baseState : AppState :=
  ⟨[], none, none, [], sampleValidValues, noTouched, none⟩

/-- Valid form, edit target 1, but an empty record list: the edit target is
outside the list's range. -/
def aboveRangeEditState : AppState :=
  { baseState with editingIndex := some 1 }

/-- One stored record, no edit target. -/
def oneRecordState : AppState :=
  { baseState with employees := [some sampleEmployee] }

/-- One stored record which is also the edit target. -/
def editingFirstState : AppState :=
  { baseState with employees := [some sampleEmployee], editingIndex := some 0 }

/-- A state whose form values fail validation. -/
def invalidFormState : AppState :=
  { baseState with values := sampleInvalidValues }

/-- Storage holding a string that fails to parse as JSON. -/
def badParseState : AppState :=
  { baseState with storage := some ⟨none, false⟩ }

/-- Storage holding a JSON value that is not an array. -/
def nonListState : AppState :=
  { baseState with storage := some ⟨some (Json.num 5), false⟩ }

/-- Storage holding a well-formed serialised record list. -/
def goodListState : AppState :=
  { baseState with
    storage := some ⟨some (Json.arr ([sampleEmployee].map encodeEmployee)), false⟩ }

/-! ## Serialisation lemmas -/

/-- Decoding a document descriptor inverts encoding. -/
theorem asDoc_encodeDoc (d : DocInfo) : asDoc (encodeDoc d) = some d := rfl

/-- Decoding a document list inverts encoding. -/
theorem decodeDocs_map_encodeDoc (ds : List DocInfo) :
    decodeDocs (ds.map encodeDoc) = some ds := by
  induction ds with
  | nil => rfl
  | cons d rest ih => simp [decodeDocs, asDoc_encodeDoc, ih]

/-- Decoding an array slot inverts encoding. -/
theorem decodeSlot_encodeSlot (x : Option Employee) :
    decodeSlot (encodeSlot x) = x := by
  cases x with
  | none => rfl
  | some e =>
    obtain ⟨n, p, em, ni, db, ad, q, re, ex, lw, sa, ph, ds⟩ := e
    cases em <;> cases re <;> cases lw <;> cases ph <;>
      simp [decodeSlot, encodeSlot, encodeEmployee, decodeEmployee,
        lookupField, asStr, asInt, asOptStr, encodeOptStr,
        decodeDocs_map_encodeDoc]

/-- Element-wise round trip over a whole slot list. -/
theorem map_decodeSlot_encodeSlot (l : List (Option Employee)) :
    (l.map encodeSlot).map decodeSlot = l := by
  induction l with
  | nil => rfl
  | cons x rest ih => simp [decodeSlot_encodeSlot, ih]

/-- Decoding an encoded employee record recovers it. -/
theorem decodeSlot_encodeEmployee (e : Employee) :
    decodeSlot (encodeEmployee e) = some e :=
  decodeSlot_encodeSlot (some e)

/-! ## Claim theorems -/

/-- Claim C3: a valid submission with no edit target prepends the merged
record (form values plus staged photo preview and staged documents), so the
list grows by exactly one, the new record sits at position 0 and every
previously stored record is shifted by one in its original order. -/
theorem addEmployee_prepends (s : AppState)
    (hv : formInvalid s.values = false) (_he : s.editingIndex = none) :
    (addEmployee s).employees =
      some (mkEmployee s.values s.photoPreview s.docs) :: s.employees ∧
    (addEmployee s).employees.length = s.employees.length + 1 := by
  constructor <;> simp [addEmployee, hv, resetFormFun, saveEmployeesFun]

/-- Witness for C3 at a concrete valid state. -/
theorem addEmployee_prepends_witness :
    (addEmployee oneRecordState).employees =
      some (mkEmployee oneRecordState.values oneRecordState.photoPreview
        oneRecordState.docs) :: oneRecordState.employees ∧
    (addEmployee oneRecordState).employees.length =
      oneRecordState.employees.length + 1 :=
  addEmployee_prepends oneRecordState (by decide) rfl

/-- Claim C5: a submission whose form values fail validation blocks the
save in both the create and the update operation: the only change of state
is that every control is marked touched (record list, storage, draft
session and field values are all kept). -/
theorem invalid_submission_blocks (s : AppState)
    (hv : formInvalid s.values = true) :
    addEmployee s = { s with touched := allTouched } ∧
    updateEmployee s = { s with touched := allTouched } := by
  constructor <;> simp [addEmployee, updateEmployee, hv]

/-- Witness for C5 at a concrete invalid state. -/
theorem invalid_submission_blocks_witness :
    addEmployee invalidFormState = { invalidFormState with touched := allTouched } ∧
    updateEmployee invalidFormState = { invalidFormState with touched := allTouched } :=
  invalid_submission_blocks invalidFormState (by decide)

/-- Claim C6: `loadEmployees` is total over every stored string: a missing
key, a string that fails to parse, and parsed content that is not a list
all yield exactly the empty record list, and a well-formed stored record
list yields that list. -/
theorem loadEmployees_total_fallback :
    (∀ s : AppState, s.storage = none → (loadEmployeesFun s).employees = []) ∧
    (∀ (s : AppState) (r : RawString), s.storage = some r → r.parsed = none →
      (loadEmployeesFun s).employees = []) ∧
    (∀ (s : AppState) (r : RawString) (j : Json), s.storage = some r →
      r.parsed = some j → (∀ xs, j ≠ Json.arr xs) →
      (loadEmployeesFun s).employees = []) ∧
    (∀ (s : AppState) (r : RawString) (l : List Employee), s.storage = some r →
      r.isEmptyStr = false → r.parsed = some (Json.arr (l.map encodeEmployee)) →
      (loadEmployeesFun s).employees = l.map some) := by
  refine ⟨?_, ?_, ?_, ?_⟩
  · intro s hs
    simp [loadEmployeesFun, loadList, hs]
  · intro s r hs hp
    obtain ⟨pr, emp⟩ := r
    simp only at hp
    subst hp
    cases emp <;> simp [loadEmployeesFun, loadList, hs]
  · intro s r j hs hp hj
    obtain ⟨pr, emp⟩ := r
    simp only at hp
    subst hp
    cases emp with
    | true => simp [loadEmployeesFun, loadList, hs]
    | false =>
      cases j with
      | arr xs => exact absurd rfl (hj xs)
      | null => simp [loadEmployeesFun, loadList, hs]
      | bool b => simp [loadEmployeesFun, loadList, hs]
      | num n => simp [loadEmployeesFun, loadList, hs]
      | str t => simp [loadEmployeesFun, loadList, hs]
      | obj f => simp [loadEmployeesFun, loadList, hs]
  · intro s r l hs hemp hp
    obtain ⟨pr, emp⟩ := r
    simp only at hp hemp
    subst hp hemp
    simp [loadEmployeesFun, loadList, hs, decodeSlot_encodeEmployee]

/-- Witness for C6: each fallback case at a concrete stored value, and the
well-formed case at a concrete one-record list. -/
theorem loadEmployees_total_fallback_witness :
    (loadEmployeesFun baseState).employees = [] ∧
    (loadEmployeesFun badParseState).employees = [] ∧
    (loadEmployeesFun nonListState).employees = [] ∧
    (loadEmployeesFun goodListState).employees = [sampleEmployee].map some :=
  ⟨loadEmployees_total_fallback.1 baseState rfl,
   loadEmployees_total_fallback.2.1 badParseState ⟨none, false⟩ rfl rfl,
   loadEmployees_total_fallback.2.2.1 nonListState ⟨some (Json.num 5), false⟩
     (Json.num 5) rfl rfl (fun _ h => Json.noConfusion h),
   loadEmployees_total_fallback.2.2.2 goodListState
     ⟨some (Json.arr ([sampleEmployee].map encodeEmployee)), false⟩
     [sampleEmployee] rfl rfl rfl⟩

/-- Claim C7: persisting the record list and reloading it yields the same
list, field for field (the storage adapter and the JSON serialisation are
modelled as faithful, which is the claim's premise). -/
theorem save_load_round_trip (s : AppState) :
    (loadEmployeesFun (saveEmployeesFun s)).employees = s.employees := by
  have h := map_decodeSlot_encodeSlot s.employees
  simp only [List.map_map] at h
  simp [loadEmployeesFun, saveEmployeesFun, loadList, jsonStringify, h]

/-- Claim C10: a start-edit action at an index that does not refer to an
existing record is a complete no-op: the whole state, in particular the
form values, photo preview, staged documents and edit target, is kept. -/
theorem editEmployee_out_of_range_noop (s : AppState) (i : Int)
    (h : ¬(0 ≤ i ∧ i.toNat < s.employees.length)) :
    editEmployee i s = s := by
  have hget : jsIndexGet s.employees i = none := by
    unfold jsIndexGet
    by_cases h0 : 0 ≤ i
    · rw [if_pos h0]
      exact List.getD_eq_default _ _ (by omega)
    · rw [if_neg h0]
  unfold editEmployee
  rw [hget]

/-- Witness for C10 at index 5 of a one-record list. -/
theorem editEmployee_out_of_range_noop_witness :
    editEmployee 5 oneRecordState = oneRecordState :=
  editEmployee_out_of_range_noop oneRecordState 5 (by decide)

/-- The record list after a delete is the spliced list, whether or not the
draft session is reset afterwards. -/
theorem deleteEmployee_employees (s : AppState) (i : Int) :
    (deleteEmployee i s).employees = jsSpliceRemove s.employees i := by
  unfold deleteEmployee
  dsimp only
  split <;> rfl

/-- Counterexample to claim C1: with a valid form and edit target 1 over an
empty record list — an index outside `[0, length)` — the update is not a
no-op: JS assignment past the end extends the array. -/
theorem updateEmployee_above_range_changes_list :
    formInvalid aboveRangeEditState.values = false ∧
    aboveRangeEditState.editingIndex = some 1 ∧
    aboveRangeEditState.employees.length = 0 ∧
    (updateEmployee aboveRangeEditState).employees ≠
      aboveRangeEditState.employees := by
  refine ⟨by decide, rfl, rfl, by decide⟩

/-- Claim C1 as amended: for a valid submission, a missing or negative edit
target is a no-op; an in-range edit target `i` replaces the record at `i`
and keeps the length; an edit target at or past the end extends the list to
length `i + 1`, placing the merged record at position `i` with vacant slots
before it, so the list is not unchanged. -/
theorem updateEmployee_index_behavior (s : AppState)
    (hv : formInvalid s.values = false) :
    (s.editingIndex = none → updateEmployee s = s) ∧
    (∀ i : Int, s.editingIndex = some i → i < 0 → updateEmployee s = s) ∧
    (∀ i : Int, s.editingIndex = some i → 0 ≤ i →
      i.toNat < s.employees.length →
      (updateEmployee s).employees =
        s.employees.set i.toNat
          (some (mkEmployee s.values s.photoPreview s.docs)) ∧
      (updateEmployee s).employees.length = s.employees.length) ∧
    (∀ i : Int, s.editingIndex = some i → 0 ≤ i →
      s.employees.length ≤ i.toNat →
      (updateEmployee s).employees =
        s.employees ++ List.replicate (i.toNat - s.employees.length) none ++
          [some (mkEmployee s.values s.photoPreview s.docs)] ∧
      (updateEmployee s).employees.length = i.toNat + 1) := by
  refine ⟨?_, ?_, ?_, ?_⟩
  · intro h
    simp [updateEmployee, hv, h]
  · intro i h hneg
    simp [updateEmployee, hv, h, hneg]
  · intro i h h0 hlt
    have hnneg : ¬i < 0 := by omega
    simp [updateEmployee, hv, h, hnneg, resetFormFun, saveEmployeesFun,
      jsArraySet, hlt]
  · intro i h h0 hge
    have hnneg : ¬i < 0 := by omega
    have hnlt : ¬i.toNat < s.employees.length := by omega
    constructor
    · simp [updateEmployee, hv, h, hnneg, resetFormFun, saveEmployeesFun,
        jsArraySet, hnlt]
    · simp only [updateEmployee, hv, Bool.false_eq_true, if_false, h, hnneg,
        if_false, resetFormFun, saveEmployeesFun, jsArraySet, hnlt]
      simp [List.length_append]
      omega

/-- Witness for the amended C1 at an in-range edit target. -/
theorem updateEmployee_index_behavior_witness :
    (updateEmployee editingFirstState).employees =
      editingFirstState.employees.set 0
        (some (mkEmployee editingFirstState.values
          editingFirstState.photoPreview editingFirstState.docs)) ∧
    (updateEmployee editingFirstState).employees.length =
      editingFirstState.employees.length :=
  (updateEmployee_index_behavior editingFirstState (by decide)).2.2.1
    0 rfl (by decide) (by decide)

/-- Counterexample to claim C2: index −1 is outside `[0, length)`, yet the
delete is not a no-op — JS `splice` counts a negative start from the end of
the array, so it removes the last record. -/
theorem deleteEmployee_negative_index_removes :
    oneRecordState.employees.length = 1 ∧
    (deleteEmployee (-1) oneRecordState).employees ≠
      oneRecordState.employees := by
  refine ⟨rfl, by decide⟩

/-- Claim C2 as amended: the remove operation leaves the record list
unchanged for every index at or past the end; a negative index is read by
`splice` as counting from the end (clamped at 0), so on a non-empty list it
removes exactly one record. -/
theorem deleteEmployee_bounds_behavior (s : AppState) (i : Int) :
    ((s.employees.length : Int) ≤ i →
      (deleteEmployee i s).employees = s.employees) ∧
    (i < 0 → s.employees ≠ [] →
      (deleteEmployee i s).employees.length = s.employees.length - 1) := by
  constructor
  · intro hge
    rw [deleteEmployee_employees]
    unfold jsSpliceRemove
    dsimp only
    have hnneg : ¬i < 0 := by omega
    have hmin : min i.toNat s.employees.length = s.employees.length := by omega
    rw [if_neg hnneg, hmin, List.drop_eq_nil_of_le (by omega), List.take_length,
      List.append_nil]
  · intro hneg hne
    have hlen : 1 ≤ s.employees.length := by
      cases hl : s.employees with
      | nil => exact absurd hl hne
      | cons a l => simp [hl]
    rw [deleteEmployee_employees]
    unfold jsSpliceRemove
    dsimp only
    rw [if_pos hneg]
    have hstart : ((s.employees.length : Int) + i).toNat < s.employees.length := by
      omega
    simp [List.length_take, List.length_drop]
    omega

/-- Witness for the amended C2: index 5 past the end is a no-op, index −1
on a one-record list removes a record. -/
theorem deleteEmployee_bounds_behavior_witness :
    (deleteEmployee 5 oneRecordState).employees = oneRecordState.employees ∧
    (deleteEmployee (-1) oneRecordState).employees.length =
      oneRecordState.employees.length - 1 :=
  ⟨(deleteEmployee_bounds_behavior oneRecordState 5).1 (by decide),
   (deleteEmployee_bounds_behavior oneRecordState (-1)).2 (by decide) (by decide)⟩

/-- Claim C4: deleting an in-range index removes exactly the record at that
index — the part of the list before it is kept, every later record shifts
down by one, the length drops by one — and when the deleted index was the
edit target the draft session returns to the new-record state (no edit
target, no photo preview, no staged documents, default field values). -/
theorem deleteEmployee_in_range (s : AppState) (i : Int) (h0 : 0 ≤ i)
    (h1 : i.toNat < s.employees.length) :
    (deleteEmployee i s).employees =
      s.employees.take i.toNat ++ s.employees.drop (i.toNat + 1) ∧
    (deleteEmployee i s).employees.length = s.employees.length - 1 ∧
    (s.editingIndex = some i →
      (deleteEmployee i s).editingIndex = none ∧
      (deleteEmployee i s).photoPreview = none ∧
      (deleteEmployee i s).docs = [] ∧
      (deleteEmployee i s).values = defaultFormValues) := by
  have hnneg : ¬i < 0 := by omega
  have hmin : min i.toNat s.employees.length = i.toNat := by omega
  have hemp : (deleteEmployee i s).employees =
      s.employees.take i.toNat ++ s.employees.drop (i.toNat + 1) := by
    rw [deleteEmployee_employees]
    unfold jsSpliceRemove
    dsimp only
    rw [if_neg hnneg]
    rw [hmin]
  refine ⟨hemp, ?_, ?_⟩
  · rw [hemp]
    simp [List.length_take, List.length_drop]
    omega
  · intro hed
    unfold deleteEmployee
    rw [if_pos (by simp [saveEmployeesFun, hed])]
    simp [resetFormFun, saveEmployeesFun]

/-- Witness for C4: deleting index 0 of a one-record list while editing
index 0. -/
theorem deleteEmployee_in_range_witness :
    (deleteEmployee 0 editingFirstState).employees =
      editingFirstState.employees.take 0 ++ editingFirstState.employees.drop 1 ∧
    (deleteEmployee 0 editingFirstState).employees.length =
      editingFirstState.employees.length - 1 ∧
    ((deleteEmployee 0 editingFirstState).editingIndex = none ∧
      (deleteEmployee 0 editingFirstState).photoPreview = none ∧
      (deleteEmployee 0 editingFirstState).docs = [] ∧
      (deleteEmployee 0 editingFirstState).values = defaultFormValues) := by
  have h := deleteEmployee_in_range editingFirstState 0 (by decide) (by decide)
  exact ⟨h.1, h.2.1, h.2.2 rfl⟩

/-- Below the first threshold the unit exponent is 0, with any fuel. -/
theorem log1024Aux_of_lt (n fuel : Nat) (h : n < 1024) :
    log1024Aux n fuel = 0 := by
  cases fuel <;> simp [log1024Aux, h]

/-- One division step of the unit exponent computation. -/
theorem log1024Aux_step (n fuel : Nat) (h : 1024 ≤ n) :
    log1024Aux n (fuel + 1) = log1024Aux (n / 1024) fuel + 1 := by
  have h2 : ¬n < 1024 := by omega
  simp [log1024Aux, h2]

/-- Unit exponent 0 on `[0, 1024)`. -/
theorem log1024_eq_zero (n : Nat) (h2 : n < 1024) : log1024 n = 0 :=
  log1024Aux_of_lt n n h2

/-- Unit exponent 1 on `[1024, 1024^2)`. -/
theorem log1024_eq_one (n : Nat) (h1 : 1024 ≤ n) (h2 : n < 1048576) :
    log1024 n = 1 := by
  obtain ⟨k, rfl⟩ : ∃ k, n = k + 1 := ⟨n - 1, by omega⟩
  unfold log1024
  rw [log1024Aux_step (k + 1) k (by omega),
    log1024Aux_of_lt ((k + 1) / 1024) k (by omega)]

/-- Unit exponent 2 on `[1024^2, 1024^3)`. -/
theorem log1024_eq_two (n : Nat) (h1 : 1048576 ≤ n) (h2 : n < 1073741824) :
    log1024 n = 2 := by
  obtain ⟨k, rfl⟩ : ∃ k, n = k + 2 := ⟨n - 2, by omega⟩
  unfold log1024
  rw [log1024Aux_step (k + 2) (k + 1) (by omega),
    log1024Aux_step ((k + 2) / 1024) k (by omega),
    log1024Aux_of_lt ((k + 2) / 1024 / 1024) k (by omega)]

/-- Unit exponent 3 on `[1024^3, 1024^4)`. -/
theorem log1024_eq_three (n : Nat) (h1 : 1073741824 ≤ n)
    (h2 : n < 1099511627776) : log1024 n = 3 := by
  obtain ⟨k, rfl⟩ : ∃ k, n = k + 3 := ⟨n - 3, by omega⟩
  unfold log1024
  rw [log1024Aux_step (k + 3) (k + 2) (by omega),
    log1024Aux_step ((k + 3) / 1024) (k + 1) (by omega),
    log1024Aux_step ((k + 3) / 1024 / 1024) k (by omega),
    log1024Aux_of_lt ((k + 3) / 1024 / 1024 / 1024) k (by omega)]

/-- Unit exponent 4 on `[1024^4, 1024^5)`. -/
theorem log1024_eq_four (n : Nat) (h1 : 1099511627776 ≤ n)
    (h2 : n < 1125899906842624) : log1024 n = 4 := by
  obtain ⟨k, rfl⟩ : ∃ k, n = k + 4 := ⟨n - 4, by omega⟩
  unfold log1024
  rw [log1024Aux_step (k + 4) (k + 3) (by omega),
    log1024Aux_step ((k + 4) / 1024) (k + 2) (by omega),
    log1024Aux_step ((k + 4) / 1024 / 1024) (k + 1) (by omega),
    log1024Aux_step ((k + 4) / 1024 / 1024 / 1024) k (by omega),
    log1024Aux_of_lt ((k + 4) / 1024 / 1024 / 1024 / 1024) k (by omega)]

/-- Counterexample to claim C8: the code renders 1024 bytes as `1.0 KB`
(scaled value 1 is below 10 and the unit is not bytes, so `toFixed(1)`
keeps one decimal), not as the claimed `1 KB`. -/
theorem formatBytes_kilobyte_example_fails :
    formatBytes 1024 = "1.0 KB" ∧ formatBytes 1024 ≠ "1 KB" := by
  refine ⟨by decide, by decide⟩

/-- Claim C8 as amended: `formatBytes 0 = "0 B"`; for every positive byte
count below `1024^5` (the range covered by the unit table) the rendering
equals the spec's description — largest base-1024 unit among B, KB, MB, GB,
TB, `toFixed(0)` when the scaled value reaches 10 or the unit is bytes and
`toFixed(1)` otherwise — and the worked examples read `1.0 KB` (not
`1 KB`), `1.5 KB` and `10 MB`. -/
theorem formatBytes_rendering :
    formatBytes 0 = "0 B" ∧
    (∀ n : Nat, 0 < n → n < 1125899906842624 →
      formatBytes n = formatBytesSpec n) ∧
    formatBytes 1024 = "1.0 KB" ∧
    formatBytes 1536 = "1.5 KB" ∧
    formatBytes 10485760 = "10 MB" := by
  refine ⟨rfl, ?_, by decide, by decide, by decide⟩
  intro n hpos hlt
  unfold formatBytes formatBytesSpec
  rw [if_neg (by omega), if_neg (by omega)]
  have hidx : log1024 n = specUnitIndex n := by
    unfold specUnitIndex
    rcases Nat.lt_or_ge n 1024 with h | h
    · rw [if_pos h, log1024_eq_zero n h]
    · rw [if_neg (by omega)]
      rcases Nat.lt_or_ge n 1048576 with h' | h'
      · rw [if_pos h', log1024_eq_one n h h']
      · rw [if_neg (by omega)]
        rcases Nat.lt_or_ge n 1073741824 with h2 | h2
        · rw [if_pos h2, log1024_eq_two n h' h2]
        · rw [if_neg (by omega)]
          rcases Nat.lt_or_ge n 1099511627776 with h3 | h3
          · rw [if_pos h3, log1024_eq_three n h2 h3]
          · rw [if_neg (by omega), log1024_eq_four n h3 hlt]
  rw [hidx]

/-- Witness for the amended C8 at 2048 bytes. -/
theorem formatBytes_rendering_witness :
    formatBytes 2048 = formatBytesSpec 2048 :=
  formatBytes_rendering.2.1 2048 (by decide) (by decide)

/-- Structure of a JS split: the leading separator-free run, then the rest
split after the first separator. -/
theorem jsSplitBy_struct (p : Char → Bool) (l : List Char) :
    jsSplitBy p l =
      l.takeWhile (fun c => !p c) ::
        (match l.dropWhile (fun c => !p c) with
         | [] => ([] : List (List Char))
         | _ :: r2 => jsSplitBy p r2) := by
  induction l with
  | nil => rfl
  | cons c rest ih =>
    cases hp : p c with
    | true => simp [jsSplitBy, hp, List.takeWhile_cons, List.dropWhile_cons]
    | false =>
      simp only [jsSplitBy, hp, Bool.false_eq_true, if_false, ih,
        List.takeWhile_cons, List.dropWhile_cons, Bool.not_false, if_true]

/-- The head of a non-empty `dropWhile` result fails the predicate. -/
theorem dropWhile_head_not (q : Char → Bool) (l : List Char) (d : Char)
    (r2 : List Char) (h : l.dropWhile q = d :: r2) : q d = false := by
  induction l with
  | nil => simp [List.dropWhile] at h
  | cons c rest ih =>
    rw [List.dropWhile_cons] at h
    by_cases hq : q c = true
    · rw [if_pos hq] at h
      exact ih h
    · rw [if_neg hq] at h
      obtain ⟨rfl, -⟩ := List.cons.inj h
      cases hqc : q c with
      | false => rfl
      | true => exact absurd hqc hq

/-- JS `split` followed by `filter(Boolean)` is exactly tokenisation into
maximal separator-free runs. -/
theorem filter_jsSplitBy (p : Char → Bool) (l : List Char) :
    (jsSplitBy p l).filter (fun t => !t.isEmpty) = tokensBy p l := by
  suffices H : ∀ (N : Nat) (l : List Char), l.length ≤ N →
      (jsSplitBy p l).filter (fun t => !t.isEmpty) = tokensBy p l from
    H l.length l le_rfl
  intro N
  induction N with
  | zero =>
    intro l hl
    obtain rfl : l = [] := List.eq_nil_of_length_eq_zero (by omega)
    simp [jsSplitBy, tokensBy]
  | succ N ih =>
    intro l hl
    cases l with
    | nil => simp [jsSplitBy, tokensBy]
    | cons c rest =>
      have hrest : rest.length ≤ N := by
        simp only [List.length_cons] at hl
        omega
      cases hp : p c with
      | true =>
        have h1 : jsSplitBy p (c :: rest) = [] :: jsSplitBy p rest := by
          simp [jsSplitBy, hp]
        rw [h1, List.filter_cons]
        simp only [List.isEmpty_nil, Bool.not_true, Bool.false_eq_true,
          if_false]
        rw [ih rest hrest]
        simp [tokensBy, hp]
      | false =>
        rw [jsSplitBy_struct]
        rw [List.takeWhile_cons, List.dropWhile_cons]
        simp only [hp, Bool.not_false, if_true]
        rw [List.filter_cons]
        simp only [List.isEmpty_cons, Bool.not_false, if_true]
        rw [show tokensBy p (c :: rest) =
            (c :: rest.takeWhile (fun x => !p x)) ::
              tokensBy p (rest.dropWhile (fun x => !p x)) from by
          simp [tokensBy, hp]]
        refine congrArg _ ?_
        cases hd : rest.dropWhile (fun x => !p x) with
        | nil => simp [tokensBy]
        | cons d r2 =>
          have hpd : p d = true := by
            have hh := dropWhile_head_not (fun x => !p x) rest d r2 hd
            simpa using hh
          have hlen : r2.length ≤ N := by
            have hsub := (List.dropWhile_sublist (l := rest)
              (fun x => !p x)).length_le
            rw [hd] at hsub
            simp only [List.length_cons] at hsub
            omega
          rw [ih r2 hlen]
          simp [tokensBy, hpd]

/-- Counterexample to claim C9: `initials` splits on the space character
only, so a name whose two words are separated by a tab keeps them as one
token and yields one initial, while the claim's whitespace splitting would
yield two. -/
theorem initials_tab_not_split :
    initials "Jane\tDoe" = "J" ∧ initialsWhitespaceSpec "Jane\tDoe" = "JD" := by
  refine ⟨by decide, by decide⟩

/-- Claim C9 as amended: `initials` splits the name on the space character
(not on all whitespace) — equivalently, it takes the maximal space-free
runs — drops empty tokens, takes the first two tokens, uppercases the first
character of each and concatenates; the worked examples hold. -/
theorem initials_space_tokenization :
    (∀ name : String, initials name = initialsSpaceTokensSpec name) ∧
    initials "Jane Doe" = "JD" ∧ initials "" = "" ∧ initials "Madonna" = "M" := by
  refine ⟨?_, by decide, by decide, by decide⟩
  intro name
  unfold initials initialsSpaceTokensSpec
  rw [filter_jsSplitBy]

end EmployeeApp
